import Mathlib

/-!
Verification of the multi-backend document-parsing subsystem of WeKnora
(`docreader/parser/mineru_parser.py`).  The three parsing strategies
(`StdMinerUParser`, `MinerUCloudParser`, `MinerUAPIParser`) are embedded
shallowly: every network response, the blob store and the external
`markdownify`/base64 libraries are supplied through an environment record,
machine effects (network requests, uploads) are logged in an explicit event
trace, Python exceptions are `Except` errors absorbed at each strategy's
public boundary, and JSON payloads are a small inductive `JVal` type.

Helpers of the repository that are not part of the provided sources
(`MarkdownImageUtil.replace_path`, `endecode.encode_image`, `Document`) are
modelled from the spec; each such definition says so in its doc comment.
-/

/-! ## Character-list string primitives

Text is `String`, but substring search and literal replacement are done on
the underlying `List Char` so that they are structurally recursive (hence
kernel-evaluable) and amenable to induction. -/

/-- `pref t s` is true when the list `t` is a leading segment of `s`. -/
def pref : List Char → List Char → Bool
  | [], _ => true
  | _ :: _, [] => false
  | a :: as, b :: bs => if a = b then pref as bs else false

/-- `containsTok tok text` is true when `tok` occurs contiguously in `text`
(the Python `tok in text` test on strings). -/
def containsTok (tok : List Char) : List Char → Bool
  | [] => pref tok []
  | c :: rest => pref tok (c :: rest) || containsTok tok rest

/-- Fuelled literal replacement of every occurrence of `tok` by `rep`,
scanning left to right (Python `str.replace`).  The fuel is always
instantiated with the length of the text, which suffices. -/
def replaceFuel (tok rep : List Char) : Nat → List Char → List Char
  | _, [] => []
  | 0, text => text
  | fuel + 1, c :: rest =>
    if !tok.isEmpty && pref tok (c :: rest) then
      rep ++ replaceFuel tok rep fuel (List.drop tok.length (c :: rest))
    else
      c :: replaceFuel tok rep fuel rest

/-- String-level wrapper of `replaceFuel`. -/
def strReplace (s tok rep : String) : String :=
  ⟨replaceFuel tok.data rep.data s.data.length s.data⟩

/-- Python `tok in s` on strings. -/
def containsS (s tok : String) : Bool :=
  containsTok tok.data s.data

/-- Python `s.startswith(p)`. -/
def strStartsWith (s p : String) : Bool :=
  pref p.data s.data

/-- Python `s.endswith(p)`. -/
def strEndsWith (s p : String) : Bool :=
  pref p.data.reverse s.data.reverse

/-- ASCII lower-casing of one character (Python `str.lower` restricted to
the ASCII names that occur in result archives). -/
def charLower (c : Char) : Char :=
  if 'A' ≤ c ∧ c ≤ 'Z' then Char.ofNat (c.toNat + 32) else c

/-- Python `s.lower()`. -/
def lowerStr (s : String) : String :=
  ⟨s.data.map charLower⟩

/-! ## Path arithmetic (`os.path` as used by the archive extractor) -/

/-- Split a character list at `'/'` separators. -/
def splitSlash : List Char → List Char → List (List Char)
  | [], acc => [acc.reverse]
  | c :: rest, acc =>
    if c = '/' then acc.reverse :: splitSlash rest [] else splitSlash rest (c :: acc)

/-- Normalised path components: split on `/`, dropping empty and `.`
components (the normalisation `os.path.relpath` performs). -/
def comps (p : String) : List String :=
  ((splitSlash p.data []).map (fun cs => (⟨cs⟩ : String))).filter
    (fun s => decide (s ≠ "") && decide (s ≠ "."))

/-- Length of the common leading run of two component lists. -/
def commonLen : List String → List String → Nat
  | a :: as, b :: bs => if a = b then commonLen as bs + 1 else 0
  | _, _ => 0

/-- Join path components with `/`. -/
def joinSlash : List String → String
  | [] => ""
  | [x] => x
  | x :: xs => x ++ "/" ++ joinSlash xs

/-- `os.path.relpath p start` for the relative paths found inside result
archives: strip the common component run, then go up with `..` for what
remains of `start` and down into the rest of `p`. -/
def relpath (p start : String) : String :=
  let ps := comps p
  let ss := comps start
  let k := commonLen ps ss
  let parts := List.replicate (ss.length - k) ".." ++ ps.drop k
  if parts = [] then "." else joinSlash parts

/-- `os.path.dirname`: everything before the last `/`, `""` when there is
no separator. -/
def dirname (p : String) : String :=
  if p.data.any (fun c => decide (c = '/')) then
    ⟨(((p.data.reverse.dropWhile (fun c => decide (c ≠ '/'))).drop 1).reverse)⟩
  else ""

/-- `os.path.splitext(p)[1]`: the `.`-prefixed extension of the last path
component, `""` when the basename has no interior dot. -/
def extOf (p : String) : String :=
  let rbase := p.data.reverse.takeWhile (fun c => decide (c ≠ '/'))
  let rext := rbase.takeWhile (fun c => decide (c ≠ '.'))
  if rext.length < rbase.length then
    if rext.length + 1 = rbase.length then "" else "." ++ (⟨rext.reverse⟩ : String)
  else ""

/-! ## JSON values -/

/-- JSON payloads as returned by `response.json()`. -/
inductive JVal where
  | null : JVal
  | bool : Bool → JVal
  | num : Int → JVal
  | str : String → JVal
  | obj : List (String × JVal) → JVal
  | arr : List JVal → JVal

/-- First binding of a key in an object's field list (`dict.get`, without
a default). -/
def lookupJ : List (String × JVal) → String → Option JVal
  | [], _ => none
  | (k, v) :: rest, key => if k = key then some v else lookupJ rest key

/-- `dict.get(key)` with the Python default `None`. -/
def lookupD (fs : List (String × JVal)) (key : String) : JVal :=
  (lookupJ fs key).getD .null

/-- Python truthiness of a JSON value. -/
def isTruthy : JVal → Bool
  | .null => false
  | .bool b => b
  | .num n => decide (n ≠ 0)
  | .str s => decide (s ≠ "")
  | .obj fs => !fs.isEmpty
  | .arr l => !l.isEmpty

/-- Python `a or b`. -/
def pyOr (a b : JVal) : JVal :=
  if isTruthy a then a else b

/-- Python `v == s` against a string literal (false for non-strings). -/
def isStrEq (v : JVal) (s : String) : Bool :=
  match v with
  | .str t => decide (t = s)
  | _ => false

/-- Read an object of string values as an association list; `none` when the
value is not such an object (iterating it in Python raises). -/
def strPairs : List (String × JVal) → Option (List (String × String))
  | [] => some []
  | (k, .str v) :: rest => (strPairs rest).map (fun l => (k, v) :: l)
  | _ => none

/-- Coerce a JSON value to the candidate-image mapping `Dict[str, str]`. -/
def asStrPairs : JVal → Option (List (String × String))
  | .obj fs => strPairs fs
  | _ => none

/-! ## Data model, effects and errors -/

/-- Modelled from the spec: the `ParsedDocument` output artifact
(`docreader.models.document.Document`, not among the provided sources):
`content` is the final markdown text and `images` maps each blob-store URL
to the original encoded payload (or `""`).  `Document()` in the source is
`⟨"", []⟩` here. -/
structure Document where
  content : String
  images : List (String × String)
deriving DecidableEq

/-- Machine effects of one parse call: a network request (tagged with the
endpoint), a blob-store upload (`storage.upload_bytes`) and a secondary
object-storage upload (`AliyunOSSHelper.upload_bytes`). -/
inductive Event where
  | net (tag : String) : Event
  | up (bytes ext : String) : Event
  | ossUp (bytes : String) : Event
deriving DecidableEq

/-- The Python exceptions that can cross an internal step: network errors
(`requests` failures / bad HTTP status / JSON decode), a missing task id
(`ValueError`), a remote-reported failure (`RuntimeError`), the poll
timeout (`TimeoutError`), a missing zip URL or markdown entry, an
`AttributeError` from calling `.get` on a non-dict payload, and the
source-upload failure (modelled as an error although the source returns
the empty document directly, which is observably the same). -/
inductive PErr where
  | net : PErr
  | submission : PErr
  | remote (msg : JVal) : PErr
  | timeout (elapsed : Nat) : PErr
  | extraction : PErr
  | attr : PErr
  | uploadFail : PErr

/-- Classification of one successfully fetched status payload. -/
inductive StepRes where
  | success (d : JVal) : StepRes
  | fail (msg : JVal) : StepRes
  | crash : StepRes
  | cont : StepRes

/-- Result of the poll loop; the `Nat` is the iteration index (the elapsed
time is twice the index, with `POLL_INTERVAL = 2`). -/
inductive Outcome where
  | success (i : Nat) (d : JVal) : Outcome
  | fail (i : Nat) (msg : JVal) : Outcome
  | crash (i : Nat) : Outcome
  | timeout (i : Nat) : Outcome

/-! ## The shared poll loop

Both asynchronous strategies run the same loop (`MAX_WAIT_TIME = 600`,
`POLL_INTERVAL = 2`): at iteration `i` the elapsed time is `2 * i`; the
loop first checks `elapsed > 600`, then fetches the status (a
`requests.RequestException`, modelled as `none`, is retried after one
interval) and classifies it.  The loop provably performs at most `302 - i`
further iterations, so a fuel of exactly `302 - i` makes the fuelled
recursion agree with the unbounded Python loop at every index (fuel can
only run out at `i ≥ 302`, where the time guard fires anyway). -/

def pollAux (step : JVal → StepRes) (st : Nat → Option JVal) : Nat → Nat → Outcome
  | 0, i => .timeout i
  | fuel + 1, i =>
    if 600 < 2 * i then .timeout i
    else
      match st i with
      | none => pollAux step st fuel (i + 1)
      | some j =>
        match step j with
        | .success d => .success i d
        | .fail m => .fail i m
        | .crash => .crash i
        | .cont => pollAux step st fuel (i + 1)

/-- The poll loop started at iteration `i` (the strategies start at 0). -/
def pollFrom (step : JVal → StepRes) (st : Nat → Option JVal) (i : Nat) : Outcome :=
  pollAux step st (302 - i) i

/-! ## Image reconciliation (`ImageReconciler`)

The candidate filter / decode / upload / collect loop is written once; it
is the loop of `StdMinerUParser.parse_into_text` (which does not guard on
`self.storage`, i.e. `hasStorage = true`) and, verbatim, the loop of
`MinerUCloudParser.parse_into_text` (which guards uploads with
`if self.storage:`).  `dec` is `endecode.encode_image` (modelled from the
spec: base64 decoding that yields `""` on failure, `errors="ignore"`), and
`up` is `storage.upload_bytes` (bytes and extension to URL, `""` on
failure). -/

/-- The regex `data:image/(\w+);base64,(.*)` applied with `re.match`:
returns the format group and the payload group (the payload stops at a
newline, as `.` does not match newlines). -/
def matchB64 (s : String) : Option (String × String) :=
  let l := s.data
  let p := "data:image/".data
  if pref p l then
    let rest := l.drop p.length
    let ext := rest.takeWhile (fun c => c.isAlphanum || decide (c = '_'))
    if !ext.isEmpty && pref ";base64,".data (rest.drop ext.length) then
      some (⟨ext⟩, ⟨(rest.drop (ext.length + 8)).takeWhile (fun c => decide (c ≠ '\n'))⟩)
    else none
  else none

def recon (hasStorage : Bool) (dec : String → String) (up : String → String → String)
    (md : String) :
    List (String × String) → List (String × String) × List (String × String) × List Event
  | [] => ([], [], [])
  | (ipath, b64) :: rest =>
    if containsS md ("images/" ++ ipath) then
      match matchB64 b64 with
      | some (ext, b64c) =>
        let bytes := dec b64c
        if bytes = "" then recon hasStorage dec up md rest
        else if hasStorage then
          let url := up bytes ("." ++ ext)
          let r := recon hasStorage dec up md rest
          ((url, b64c) :: r.1, (("images/" ++ ipath, url) :: r.2.1, .up bytes ("." ++ ext) :: r.2.2))
        else recon hasStorage dec up md rest
      | none => recon hasStorage dec up md rest
    else recon hasStorage dec up md rest

/-- Modelled from the spec: `MarkdownImageUtil.replace_path` (not among the
provided sources) performs literal substring replacement of every
reference token in the text by its URL, one token after the other in
mapping order. -/
def replacePath (text : String) (m : List (String × String)) : String :=
  m.foldl (fun t p => strReplace t p.1 p.2) text

/-- The full `ImageReconciler` sequence: filter/decode/upload the
candidates, then rewrite every surviving reference token in the text. -/
def reconcile (hasStorage : Bool) (dec : String → String) (up : String → String → String)
    (text : String) (cands : List (String × String)) :
    String × List (String × String) × List Event :=
  let r := recon hasStorage dec up text cands
  (replacePath text r.2.1, r.1, r.2.2)

/-- Absorb a strategy run at its public boundary: a raised error becomes
the empty document (`except Exception: ... return Document()`); the trace
of performed effects is kept either way. -/
def absorb (r : List Event × Except PErr Document) : Document × List Event :=
  (match r.2 with
   | .error _ => ⟨"", []⟩
   | .ok d => d, r.1)

/-! ## SynchronousStrategy (`StdMinerUParser`) -/

/-- Environment of one synchronous parse call: the constructor-time probe
(`GET /docs` with `raise_for_status`), the `POST /file_parse` response
already projected to `(md_content, images)` (any malformed response is the
error case), and the external collaborators `markdownify.markdownify`,
`endecode.encode_image` and `storage.upload_bytes`. -/
structure StdEnv where
  probe : Except Unit Unit
  fileParse : String → Except Unit (String × List (String × String))
  markdownify : String → String
  decode : String → String
  upload : String → String → String

structure StdCfg where
  em : Bool
  enable : Bool

/-- `StdMinerUParser.ping`: true exactly when the probe request succeeded. -/
def ping (probe : Except Unit Unit) : Bool :=
  match probe with
  | .ok _ => true
  | .error _ => false

/-- `StdMinerUParser.__init__`: `enable` is the probe result. -/
def mkStd (env : StdEnv) (em : Bool) : StdCfg :=
  ⟨em, ping env.probe⟩

/-- `StdMinerUParser.parse_into_text` up to the public boundary.  The
`try` block of the source covers only the `/file_parse` request and the
extraction of `md_content`/`images`; the markdownify and reconciliation
phases follow it (in this model they are total, mirroring an upload that
signals failure by returning a falsy URL rather than raising, cf. the
`if not file_url` check in `MinerUAPIParser`). -/
def stdRun (cfg : StdCfg) (env : StdEnv) (content : String) :
    List Event × Except PErr Document :=
  if cfg.enable = false then ([], .ok ⟨"", []⟩)
  else
    match env.fileParse content with
    | .error _ => ([.net "file_parse"], .error .net)
    | .ok (md0, cands) =>
      let md := if cfg.em then env.markdownify md0 else md0
      let r := reconcile true env.decode env.upload md cands
      (Event.net "file_parse" :: r.2.2, .ok ⟨r.1, r.2.1⟩)

def parseStd (cfg : StdCfg) (env : StdEnv) (content : String) : Document × List Event :=
  absorb (stdRun cfg env content)

/-! ## SelfHostedAsyncStrategy (`MinerUCloudParser`) -/

/-- Task-id extraction of the self-hosted submit response:
`resp_data.get("task_id") or resp_data.get("data", {}).get("task_id")`,
with short-circuiting (`.get` on a non-dict raises, the error case). -/
def cloudTaskId (j : JVal) : Except Unit (Option JVal) :=
  match j with
  | .obj fs =>
    let t := lookupD fs "task_id"
    if isTruthy t then .ok (some t)
    else
      match (lookupJ fs "data").getD (.obj []) with
      | .obj gs =>
        .ok (let v := lookupD gs "task_id"; if isTruthy v then some v else none)
      | _ => .error ()
  | _ => .error ()

/-- Status classification of the self-hosted loop: state is
`status_data.get("status") or status_data.get("state")`; `done`/`success`
terminate, `failed` fails with `status_data.get("error") or
"Unknown error"`, anything else re-iterates; a non-dict payload raises. -/
def cloudStep (j : JVal) : StepRes :=
  match j with
  | .obj fs =>
    let state := pyOr (lookupD fs "status") (lookupD fs "state")
    if isStrEq state "done" || isStrEq state "success" then .success .null
    else if isStrEq state "failed" then
      .fail (pyOr (lookupD fs "error") (.str "Unknown error"))
    else .cont
  | _ => .crash

/-- Environment of one self-hosted async parse call. -/
structure CloudEnv where
  probe : Except Unit Unit
  submit : String → Except Unit JVal
  status : Nat → Option JVal
  result : Except Unit JVal
  markdownify : String → String
  decode : String → String
  upload : String → String → String

structure CloudCfg where
  em : Bool
  enable : Bool
  hasStorage : Bool

/-- `MinerUCloudParser` construction (inherits `enable = ping()`). -/
def mkCloud (env : CloudEnv) (em hasStorage : Bool) : CloudCfg :=
  ⟨em, ping env.probe, hasStorage⟩

/-- `MinerUCloudParser.parse_into_text` up to the public boundary:
submit, extract a task id, poll `/status/...`, fetch `/result/...`,
normalise via `result_json.get("result", result_json)`, markdownify,
reconcile; the candidate mapping must be a dict of strings (anything
else raises when iterated or matched). -/
def cloudRun (cfg : CloudCfg) (env : CloudEnv) (content : String) :
    List Event × Except PErr Document :=
  if cfg.enable = false then ([], .ok ⟨"", []⟩)
  else
    match env.submit content with
    | .error _ => ([.net "submit"], .error .net)
    | .ok rj =>
      match cloudTaskId rj with
      | .error _ => ([.net "submit"], .error .attr)
      | .ok none => ([.net "submit"], .error .submission)
      | .ok (some _) =>
        match pollFrom cloudStep env.status 0 with
        | .timeout i =>
          (Event.net "submit" :: List.replicate i (.net "status"), .error (.timeout (2 * i)))
        | .fail i m =>
          (Event.net "submit" :: List.replicate (i + 1) (.net "status"), .error (.remote m))
        | .crash i =>
          (Event.net "submit" :: List.replicate (i + 1) (.net "status"), .error .attr)
        | .success i _ =>
          let evs := Event.net "submit" :: List.replicate (i + 1) (Event.net "status")
            ++ [Event.net "result"]
          match env.result with
          | .error _ => (evs, .error .net)
          | .ok resJ =>
            match resJ with
            | .obj fs =>
              match (lookupJ fs "result").getD (.obj fs) with
              | .obj rds =>
                match (lookupJ rds "md_content").getD (.str "") with
                | .str md0 =>
                  match asStrPairs ((lookupJ rds "images").getD (.obj [])) with
                  | some cands =>
                    let md1 := if cfg.em then env.markdownify md0 else md0
                    let r := recon cfg.hasStorage env.decode env.upload md1 cands
                    let md2 := if r.2.1 = [] then md1 else replacePath md1 r.2.1
                    (evs ++ r.2.2, .ok ⟨md2, r.1⟩)
                  | none => (evs, .error .attr)
                | _ => (evs, .error .attr)
              | _ => (evs, .error .attr)
            | _ => (evs, .error .attr)

def parseCloud (cfg : CloudCfg) (env : CloudEnv) (content : String) : Document × List Event :=
  absorb (cloudRun cfg env content)

/-! ## CloudOfficialAsyncStrategy (`MinerUAPIParser`) -/

/-- Task-id extraction of the official-API submit response:
`task_data = resp_json.get("data")`; a string payload is the id itself, a
dict payload yields `task_data.get("id") or task_data.get("task_id")`;
a falsy id raises `ValueError` (`none` here); a non-dict response raises
when `.get` is called on it. -/
def apiTaskId (j : JVal) : Except Unit (Option JVal) :=
  match j with
  | .obj fs =>
    .ok
      (match lookupJ fs "data" with
       | some (.str s) => if s = "" then none else some (.str s)
       | some (.obj gs) =>
         let v := pyOr (lookupD gs "id") (lookupD gs "task_id")
         if isTruthy v then some v else none
       | _ => none)
  | _ => .error ()

/-- Status classification of the official-API loop:
`data = status_json.get("data", {})`; `state = data.get("state") or
data.get("status")`, with a top-level fallback when that is falsy;
success on `done|success|completed|succeeded` carries `data` as the
result payload, failure on `failed|error` carries `data.get("error") or
"Unknown error"`.  Calling `.get` on a non-dict (a non-object payload,
or a `data` field present but not an object — e.g. `null`) raises an
`AttributeError`, which the inner `except requests.RequestException`
does not catch: `crash`. -/
def apiStep (j : JVal) : StepRes :=
  match j with
  | .obj fs =>
    match (lookupJ fs "data").getD (.obj []) with
    | .obj ds =>
      let s0 := pyOr (lookupD ds "state") (lookupD ds "status")
      let state := if isTruthy s0 then s0 else pyOr (lookupD fs "state") (lookupD fs "status")
      if isStrEq state "done" || isStrEq state "success" || isStrEq state "completed"
          || isStrEq state "succeeded" then
        .success (.obj ds)
      else if isStrEq state "failed" || isStrEq state "error" then
        .fail (pyOr (lookupD ds "error") (.str "Unknown error"))
      else .cont
    | _ => .crash
  | _ => .crash

/-- Zip-URL extraction from the success payload: `full_zip_url` if truthy,
else the first truthy field whose name ends in `zip_url`. -/
def findZipUrl (ds : List (String × JVal)) : Option JVal :=
  let z := lookupD ds "full_zip_url"
  if isTruthy z then some z
  else
    match ds.find? (fun p => strEndsWith p.1 "zip_url" && isTruthy p.2) with
    | some p => some p.2
    | none => none

/-- An entry name eligible as the preferred markdown file. -/
def fullOkB (n : String) : Bool :=
  strEndsWith n "full.md" && !strStartsWith n "__MACOSX"

/-- An entry name eligible as the fallback markdown file. -/
def mdOkB (n : String) : Bool :=
  strEndsWith n ".md" && !strStartsWith n "__MACOSX"

/-- Markdown-entry selection in the result archive: the first name ending
in `full.md` outside `__MACOSX`, else the first name ending in `.md`
outside `__MACOSX`. -/
def findMd (names : List String) : Option String :=
  match names.find? fullOkB with
  | some n => some n
  | none => names.find? mdOkB

/-- The image-extension test `lower_name.endswith((".png", ...))`. -/
def isImgName (name : String) : Bool :=
  [".png", ".jpg", ".jpeg", ".gif", ".bmp", ".webp"].any
    (fun e => strEndsWith (lowerStr name) e)

/-- The archive image loop: every non-`__MACOSX` entry with an image
extension and non-empty bytes is uploaded (no check that it is referenced
by the markdown); the output mapping records the URL with an empty
placeholder, and both the path relative to the markdown directory and its
`./`-prefixed variant are registered as rewrite keys. -/
def zipImages (up : String → String → String) (mdDir : String) :
    List (String × String) → List (String × String) × List (String × String) × List Event
  | [] => ([], [], [])
  | (name, bytes) :: rest =>
    if strStartsWith name "__MACOSX" then zipImages up mdDir rest
    else if isImgName name then
      if bytes = "" then zipImages up mdDir rest
      else
        let url := up bytes (extOf name)
        let rel := relpath name mdDir
        let r := zipImages up mdDir rest
        ((url, "") :: r.1,
         ((rel, url) :: ("./" ++ rel, url) :: r.2.1, .up bytes (extOf name) :: r.2.2))
    else zipImages up mdDir rest

/-- Archive extraction and reconciliation of `MinerUAPIParser` (step 5):
select the markdown entry (none ⇒ empty document, modelled as an
extraction error since the observable result is the same), read it,
process all image entries, and rewrite the registered path tokens when
any were registered. -/
def processZip (up : String → String → String) (entries : List (String × String)) :
    List Event × Except PErr Document :=
  match findMd (entries.map Prod.fst) with
  | none => ([], .error .extraction)
  | some mdName =>
    let mdC := ((entries.find? (fun p => p.1 = mdName)).map Prod.snd).getD ""
    let mdDir := dirname mdName
    let r := zipImages up mdDir entries
    let md2 := if r.2.1 = [] then mdC else replacePath mdC r.2.1
    (r.2.2, .ok ⟨md2, r.1⟩)

/-- Environment of one official-API parse call: the secondary
object-storage configuration and uploader, the default blob store, and
the three remote interactions (submit, status stream, zip download with
its archive already decoded into `(name, bytes)` entries). -/
structure APIEnv where
  ossConfigured : Bool
  ossUpload : String → Except Unit String
  upload : String → String → String
  submit : String → Except Unit JVal
  status : Nat → Option JVal
  zipFetch : JVal → Except Unit (List (String × String))

structure APICfg where
  apiToken : String
  enable : Bool

/-- `MinerUAPIParser.__init__`: the enable flag is unconditionally forced
to `true` (the probe result of the superclass constructor is overwritten). -/
def mkAPI (token : String) : APICfg :=
  ⟨token, true⟩

/-- `MinerUAPIParser.parse_into_text` up to the public boundary: resolve a
source URL (secondary object storage when configured, falling back to the
default blob store; a falsy URL ends the call with an empty document),
submit, extract a task id, poll, locate the zip URL in the success
payload, download the archive and process it. -/
def apiRun (env : APIEnv) (content : String) :
    List Event × Except PErr Document :=
  let osr : List Event × String :=
    if env.ossConfigured then
      match env.ossUpload content with
      | .ok u => ([.ossUp content], u)
      | .error _ => ([.ossUp content], "")
    else ([], "")
  let fur : List Event × String :=
    if osr.2 = "" then (osr.1 ++ [.up content ".pdf"], env.upload content ".pdf") else osr
  if fur.2 = "" then (fur.1, .error .uploadFail)
  else
    match env.submit fur.2 with
    | .error _ => (fur.1 ++ [.net "submit"], .error .net)
    | .ok rj =>
      let e1 := fur.1 ++ [Event.net "submit"]
      match apiTaskId rj with
      | .error _ => (e1, .error .attr)
      | .ok none => (e1, .error .submission)
      | .ok (some _) =>
        match pollFrom apiStep env.status 0 with
        | .timeout i => (e1 ++ List.replicate i (.net "status"), .error (.timeout (2 * i)))
        | .fail i m => (e1 ++ List.replicate (i + 1) (.net "status"), .error (.remote m))
        | .crash i => (e1 ++ List.replicate (i + 1) (.net "status"), .error .attr)
        | .success i d =>
          let e2 := e1 ++ List.replicate (i + 1) (Event.net "status")
          match d with
          | .obj ds =>
            match findZipUrl ds with
            | none => (e2, .error .extraction)
            | some zu =>
              match env.zipFetch zu with
              | .error _ => (e2 ++ [.net "zip"], .error .net)
              | .ok entries =>
                let pz := processZip env.upload entries
                (e2 ++ Event.net "zip" :: pz.1, pz.2)
          | _ => (e2, .error .attr)

/-- The public boundary of `MinerUAPIParser.parse_into_text`: a missing
API token short-circuits to an empty document before any effect; any
raised error is absorbed into an empty document. -/
def parseAPI (cfg : APICfg) (env : APIEnv) (content : String) : Document × List Event :=
  if cfg.apiToken = "" then (⟨"", []⟩, []) else absorb (apiRun env content)

/-! ## Lemmas about substring search and replacement -/

theorem pref_refl_append (t x : List Char) : pref t (t ++ x) = true := by
  induction t with
  | nil => rfl
  | cons a as ih => simp [pref, ih]

theorem contains_of_pref {t s : List Char} (h : pref t s = true) :
    containsTok t s = true := by
  cases s with
  | nil => simpa [containsTok] using h
  | cons c r => simp [containsTok, h]

theorem contains_cons {t s : List Char} (c : Char) (h : containsTok t s = true) :
    containsTok t (c :: s) = true := by
  simp [containsTok, h]

/-- Replacing a token that occurs in the text plants the replacement into
the result: the core of the rewrite-step guarantee. -/
theorem urlPlanted (tok rep : List Char) (htok : tok ≠ []) :
    ∀ fuel text, text.length ≤ fuel → containsTok tok text = true →
      containsTok rep (replaceFuel tok rep fuel text) = true := by
  intro fuel
  induction fuel with
  | zero =>
    intro text hlen hc
    have hnil : text = [] := List.eq_nil_of_length_eq_zero (Nat.le_zero.mp hlen)
    subst hnil
    cases tok with
    | nil => exact absurd rfl htok
    | cons a as => simp [containsTok, pref] at hc
  | succ fuel ih =>
    intro text hlen hc
    cases text with
    | nil =>
      cases tok with
      | nil => exact absurd rfl htok
      | cons a as => simp [containsTok, pref] at hc
    | cons c rest =>
      have hne : tok.isEmpty = false := by
        cases tok with
        | nil => exact absurd rfl htok
        | cons _ _ => rfl
      by_cases hp : pref tok (c :: rest) = true
      · simp only [replaceFuel, hne, hp, Bool.not_false, Bool.and_self, if_true,
          Bool.true_and]
        exact contains_of_pref (pref_refl_append rep _)
      · have hp' : pref tok (c :: rest) = false := by
          cases hpe : pref tok (c :: rest) with
          | true => exact absurd hpe hp
          | false => rfl
        have hrest : containsTok tok rest = true := by
          have := hc
          simp only [containsTok, hp', Bool.false_or] at this
          exact this
        have hlen' : rest.length ≤ fuel := by
          simpa [List.length_cons] using Nat.succ_le_succ_iff.mp hlen
        have := ih rest hlen' hrest
        simp only [replaceFuel, hp', Bool.and_false, if_false]
        exact contains_cons c this

/-! ## Lemmas about the poll loop -/

/-- Iteration `j` of the loop neither terminates nor raises: the status
fetch failed transiently, or the classified state is non-terminal. -/
def contAt (step : JVal → StepRes) (st : Nat → Option JVal) (j : Nat) : Prop :=
  st j = none ∨ ∃ v, st j = some v ∧ step v = StepRes.cont

/-- The fuelled loop agrees with its own one-step unfolding at every
index: the fuel `302 - i` can only run out where the time guard fires
with the same result. -/
theorem pollFrom_unfold (step : JVal → StepRes) (st : Nat → Option JVal) (i : Nat) :
    pollFrom step st i =
      if 600 < 2 * i then .timeout i
      else
        match st i with
        | none => pollFrom step st (i + 1)
        | some j =>
          match step j with
          | .success d => .success i d
          | .fail m => .fail i m
          | .crash => .crash i
          | .cont => pollFrom step st (i + 1) := by
  by_cases h : i ≤ 301
  · have h1 : 302 - i = (301 - i) + 1 := by omega
    have h2 : 301 - i = 302 - (i + 1) := by omega
    simp only [pollFrom, h1, pollAux, h2]
  · have h1 : 302 - i = 0 := by omega
    have h3 : 600 < 2 * i := by omega
    simp only [pollFrom, h1, pollAux, if_pos h3]

/-- Skipping a run of non-terminal iterations. -/
theorem pollSkip (step : JVal → StepRes) (st : Nat → Option JVal) :
    ∀ n i, (∀ j, i ≤ j → j < i + n → contAt step st j) → i + n ≤ 301 →
      pollFrom step st i = pollFrom step st (i + n) := by
  intro n
  induction n with
  | zero => intro i _ _; rfl
  | succ n ih =>
    intro i hc hb
    have hci : contAt step st i := hc i (Nat.le_refl i) (by omega)
    have hguard : ¬ 600 < 2 * i := by omega
    have hstep : pollFrom step st i = pollFrom step st (i + 1) := by
      rw [pollFrom_unfold step st i, if_neg hguard]
      rcases hci with hnone | ⟨v, hv, hsv⟩
      · rw [hnone]
      · rw [hv]
        simp only [hsv]
    rw [hstep]
    have : i + 1 + n = i + (n + 1) := by omega
    rw [← this]
    exact ih (i + 1) (fun j h1 h2 => hc j (by omega) (by omega)) (by omega)

/-- Every timeout the loop can produce has elapsed time strictly above the
bound. -/
theorem pollTimeoutGt (step : JVal → StepRes) (st : Nat → Option JVal) :
    ∀ n i t, 302 ≤ n + i → pollAux step st n i = .timeout t → 600 < 2 * t := by
  intro n
  induction n with
  | zero =>
    intro i t hb h
    simp only [pollAux] at h
    cases h
    omega
  | succ n ih =>
    intro i t hb h
    by_cases hg : 600 < 2 * i
    · simp only [pollAux, if_pos hg] at h
      cases h
      omega
    · simp only [pollAux, if_neg hg] at h
      cases hst : st i with
      | none =>
        rw [hst] at h
        exact ih (i + 1) t (by omega) h
      | some v =>
        rw [hst] at h
        cases hsv : step v with
        | success d => simp only [hsv] at h; cases h
        | fail m => simp only [hsv] at h; cases h
        | crash => simp only [hsv] at h; cases h
        | cont => simp only [hsv] at h; exact ih (i + 1) t (by omega) h


/-! ## Lemmas about the reconciliation loop -/

theorem recon_cons_noref {sb : Bool} {dec : String → String} {up : String → String → String}
    {md ipath b64 : String} {rest : List (String × String)}
    (hc : containsS md ("images/" ++ ipath) = false) :
    recon sb dec up md ((ipath, b64) :: rest) = recon sb dec up md rest := by
  simp [recon, hc]

theorem recon_cons_nomatch {sb : Bool} {dec : String → String} {up : String → String → String}
    {md ipath b64 : String} {rest : List (String × String)}
    (hc : containsS md ("images/" ++ ipath) = true) (hm : matchB64 b64 = none) :
    recon sb dec up md ((ipath, b64) :: rest) = recon sb dec up md rest := by
  simp [recon, hc, hm]

theorem recon_cons_nodec {sb : Bool} {dec : String → String} {up : String → String → String}
    {md ipath b64 ext b64c : String} {rest : List (String × String)}
    (hc : containsS md ("images/" ++ ipath) = true)
    (hm : matchB64 b64 = some (ext, b64c)) (hd : dec b64c = "") :
    recon sb dec up md ((ipath, b64) :: rest) = recon sb dec up md rest := by
  simp [recon, hc, hm, hd]

theorem recon_cons_nostorage {dec : String → String} {up : String → String → String}
    {md ipath b64 ext b64c : String} {rest : List (String × String)}
    (hc : containsS md ("images/" ++ ipath) = true)
    (hm : matchB64 b64 = some (ext, b64c)) (hd : dec b64c ≠ "") :
    recon false dec up md ((ipath, b64) :: rest) = recon false dec up md rest := by
  simp [recon, hc, hm, hd]

theorem recon_cons_pos {dec : String → String} {up : String → String → String}
    {md ipath b64 ext b64c : String} {rest : List (String × String)}
    (hc : containsS md ("images/" ++ ipath) = true)
    (hm : matchB64 b64 = some (ext, b64c)) (hd : dec b64c ≠ "") :
    recon true dec up md ((ipath, b64) :: rest) =
      ((up (dec b64c) ("." ++ ext), b64c) :: (recon true dec up md rest).1,
       ("images/" ++ ipath, up (dec b64c) ("." ++ ext)) :: (recon true dec up md rest).2.1,
       Event.up (dec b64c) ("." ++ ext) :: (recon true dec up md rest).2.2) := by
  simp [recon, hc, hm, hd]

/-- Candidates whose reference token is absent from the text contribute
nothing: the loop is unchanged by dropping them (no mapping entry and no
upload event for them). -/
theorem recon_filter (sb : Bool) (dec : String → String) (up : String → String → String)
    (md : String) :
    ∀ cands, recon sb dec up md cands
      = recon sb dec up md (cands.filter (fun p => containsS md ("images/" ++ p.1))) := by
  intro cands
  induction cands with
  | nil => rfl
  | cons p rest ih =>
    obtain ⟨ipath, b64⟩ := p
    by_cases hc : containsS md ("images/" ++ ipath) = true
    · rw [List.filter_cons]
      simp only [hc, if_true]
      cases hm : matchB64 b64 with
      | none => rw [recon_cons_nomatch hc hm, recon_cons_nomatch hc hm, ← ih]
      | some pr =>
        obtain ⟨ext, b64c⟩ := pr
        by_cases hd : dec b64c = ""
        · rw [recon_cons_nodec hc hm hd, recon_cons_nodec hc hm hd, ← ih]
        · cases sb with
          | false =>
            rw [recon_cons_nostorage hc hm hd, recon_cons_nostorage hc hm hd, ← ih]
          | true =>
            rw [recon_cons_pos hc hm hd, recon_cons_pos hc hm hd, ← ih]
    · have hc' : containsS md ("images/" ++ ipath) = false := by
        cases he : containsS md ("images/" ++ ipath) with
        | true => exact absurd he hc
        | false => rfl
      rw [List.filter_cons]
      simp only [hc', Bool.false_eq_true, if_false]
      rw [recon_cons_noref hc']
      exact ih

/-- Every key of the produced mapping is the upload URL of a candidate
whose token occurs in the text, that matched the base64 pattern and
decoded successfully; its stored value is the cleaned payload. -/
theorem recon_keys (sb : Bool) (dec : String → String) (up : String → String → String)
    (md : String) :
    ∀ cands k v, (k, v) ∈ (recon sb dec up md cands).1 →
      ∃ ipath b64 ext b64c, (ipath, b64) ∈ cands ∧
        containsS md ("images/" ++ ipath) = true ∧
        matchB64 b64 = some (ext, b64c) ∧ dec b64c ≠ "" ∧
        k = up (dec b64c) ("." ++ ext) ∧ v = b64c := by
  intro cands
  induction cands with
  | nil => intro k v h; simp [recon] at h
  | cons p rest ih =>
    obtain ⟨ipath, b64⟩ := p
    intro k v h
    by_cases hc : containsS md ("images/" ++ ipath) = true
    · cases hm : matchB64 b64 with
      | none =>
        rw [recon_cons_nomatch hc hm] at h
        obtain ⟨i', b', e', c', hmem, hrest⟩ := ih k v h
        exact ⟨i', b', e', c', List.mem_cons_of_mem _ hmem, hrest⟩
      | some pr =>
        obtain ⟨ext, b64c⟩ := pr
        by_cases hd : dec b64c = ""
        · rw [recon_cons_nodec hc hm hd] at h
          obtain ⟨i', b', e', c', hmem, hrest⟩ := ih k v h
          exact ⟨i', b', e', c', List.mem_cons_of_mem _ hmem, hrest⟩
        · cases sb with
          | false =>
            rw [recon_cons_nostorage hc hm hd] at h
            obtain ⟨i', b', e', c', hmem, hrest⟩ := ih k v h
            exact ⟨i', b', e', c', List.mem_cons_of_mem _ hmem, hrest⟩
          | true =>
            rw [recon_cons_pos hc hm hd] at h
            rcases List.mem_cons.mp h with heq | hmem
            · rw [Prod.ext_iff] at heq
              exact ⟨ipath, b64, ext, b64c, List.mem_cons_self _ _, hc, hm, hd,
                heq.1, heq.2⟩
            · obtain ⟨i', b', e', c', hmem', hrest⟩ := ih k v hmem
              exact ⟨i', b', e', c', List.mem_cons_of_mem _ hmem', hrest⟩
    · have hc' : containsS md ("images/" ++ ipath) = false := by
        cases he : containsS md ("images/" ++ ipath) with
        | true => exact absurd he hc
        | false => rfl
      rw [recon_cons_noref hc'] at h
      obtain ⟨i', b', e', c', hmem, hrest⟩ := ih k v h
      exact ⟨i', b', e', c', List.mem_cons_of_mem _ hmem, hrest⟩

/-- Every registered rewrite token occurs in the text and is non-empty. -/
theorem recon_rep (sb : Bool) (dec : String → String) (up : String → String → String)
    (md : String) :
    ∀ cands tok url, (tok, url) ∈ (recon sb dec up md cands).2.1 →
      containsS md tok = true ∧ tok.data ≠ [] := by
  intro cands
  induction cands with
  | nil => intro tok url h; simp [recon] at h
  | cons p rest ih =>
    obtain ⟨ipath, b64⟩ := p
    intro tok url h
    by_cases hc : containsS md ("images/" ++ ipath) = true
    · cases hm : matchB64 b64 with
      | none =>
        rw [recon_cons_nomatch hc hm] at h
        exact ih tok url h
      | some pr =>
        obtain ⟨ext, b64c⟩ := pr
        by_cases hd : dec b64c = ""
        · rw [recon_cons_nodec hc hm hd] at h
          exact ih tok url h
        · cases sb with
          | false =>
            rw [recon_cons_nostorage hc hm hd] at h
            exact ih tok url h
          | true =>
            rw [recon_cons_pos hc hm hd] at h
            rcases List.mem_cons.mp h with heq | hmem
            · rw [Prod.ext_iff] at heq
              obtain ⟨htok, _⟩ := heq
              subst htok
              refine ⟨hc, ?_⟩
              have hdata : ("images/" ++ ipath).data = "images/".data ++ ipath.data := rfl
              rw [hdata]
              have h7 : "images/".data ≠ [] := by decide
              exact fun hx => h7 (List.append_eq_nil.mp hx).1
            · exact ih tok url hmem
    · have hc' : containsS md ("images/" ++ ipath) = false := by
        cases he : containsS md ("images/" ++ ipath) with
        | true => exact absurd he hc
        | false => rfl
      rw [recon_cons_noref hc'] at h
      exact ih tok url h

/-! ## Lemmas about `List.find?` -/

theorem find_mem {α} (p : α → Bool) :
    ∀ l : List α, (∃ x, x ∈ l ∧ p x = true) → ∃ m, l.find? p = some m ∧ p m = true := by
  intro l
  induction l with
  | nil => rintro ⟨x, hx, _⟩; cases hx
  | cons a rest ih =>
    rintro ⟨x, hx, hp⟩
    by_cases ha : p a = true
    · exact ⟨a, List.find?_cons_of_pos _ ha, ha⟩
    · rcases List.mem_cons.mp hx with rfl | hx'
      · exact absurd hp ha
      · obtain ⟨m, hm, hpm⟩ := ih ⟨x, hx', hp⟩
        refine ⟨m, ?_, hpm⟩
        rw [List.find?_cons_of_neg _ ha]
        exact hm

theorem find_none {α} (p : α → Bool) :
    ∀ l : List α, (∀ x, x ∈ l → p x = false) → l.find? p = none := by
  intro l
  induction l with
  | nil => intro _; rfl
  | cons a rest ih =>
    intro h
    rw [List.find?_cons_of_neg _ (by simp [h a (List.mem_cons_self _ _)])]
    exact ih (fun x hx => h x (List.mem_cons_of_mem _ hx))

/-! ## Claims -/

/-- Claim C4: for every input, a `StdMinerUParser` whose construction-time
availability probe failed (`enable = false`) returns an empty document
from `parse_into_text` and performs no network request and no blob-store
upload (empty event trace). -/
theorem claim_C4 (env : StdEnv) (em : Bool) (content : String)
    (h : env.probe = Except.error ()) :
    parseStd (mkStd env em) env content = (⟨"", []⟩, []) := by
  simp [parseStd, mkStd, ping, h, stdRun, absorb]

def envC4 : StdEnv :=
  ⟨.error (), fun _ => .error (), fun s => s, fun s => s, fun _ _ => "u"⟩

/-- Witness for C4 at a concrete failed-probe environment. -/
theorem claim_C4_witness :
    envC4.probe = Except.error () ∧
    parseStd (mkStd envC4 true) envC4 "bytes" = (⟨"", []⟩, []) :=
  ⟨rfl, claim_C4 envC4 true "bytes" rfl⟩

def envC8 : CloudEnv :=
  { probe := .ok ()
    submit := fun _ => .ok (.obj [("task_id", .str "t1")])
    status := fun i =>
      if i < 2 then some (.obj [("status", .str "running")])
      else some (.obj [("status", .str "done")])
    result := .ok (.obj [("result", .obj
      [("md_content", .str "![x](images/1.png)"),
       ("images", .obj [("1.png", .str "data:image/png;base64,AAAA")])])])
    markdownify := fun s => s
    decode := fun s => s
    upload := fun _ _ => "http://blob/img1.png" }

/-- Claim C8: the self-hosted end-to-end scenario — submit answers
`task_id = "t1"`, the status polls report `running` twice and then `done`,
and the result carries `md_content = "![x](images/1.png)"` with the inline
candidate `1.png ↦ data:image/png;base64,AAAA` — produces a document whose
content holds the blob-store URL in place of `images/1.png` and whose
mapping has exactly one entry, keyed by that URL with value `"AAAA"`. -/
theorem claim_C8 :
    (parseCloud (mkCloud envC8 true true) envC8 "PDF").1 =
      ⟨"![x](http://blob/img1.png)", [("http://blob/img1.png", "AAAA")]⟩ := by
  rfl

/-- Claim C9: running the `ImageReconciler` sequence on an
already-reconciled pair — text together with the empty candidate
mapping — returns the text unchanged with an empty mapping and performs
no upload. -/
theorem claim_C9 (sb : Bool) (dec : String → String) (up : String → String → String)
    (text : String) :
    reconcile sb dec up text [] = (text, [], []) := rfl

/-- Claim C10: with an empty API token, `MinerUAPIParser.parse_into_text`
returns an empty document with no network request, no blob-store upload
and no secondary object-storage upload, although the constructor forces
`enable` to true unconditionally. -/
theorem claim_C10 :
    (∀ (env : APIEnv) (content : String),
        parseAPI (mkAPI "") env content = (⟨"", []⟩, [])) ∧
    (∀ token : String, (mkAPI token).enable = true) :=
  ⟨fun _ _ => rfl, fun _ => rfl⟩

/-- Claim C5: official-API task-id extraction accepts both a string
`data` payload and a nested object, yielding `"abc123"` for
`data = "abc123"` and for `data = ⦃id: "abc123"⦄`; and when no task id
can be extracted the submission raises inside the call, so the parse
returns an empty document. -/
theorem claim_C5 :
    apiTaskId (.obj [("data", .str "abc123")]) = .ok (some (.str "abc123")) ∧
    apiTaskId (.obj [("data", .obj [("id", .str "abc123")])])
      = .ok (some (.str "abc123")) ∧
    (∀ (cfg : APICfg) (env : APIEnv) (content : String) (rj : JVal),
        cfg.apiToken ≠ "" → env.ossConfigured = false →
        env.upload content ".pdf" ≠ "" →
        env.submit (env.upload content ".pdf") = .ok rj →
        apiTaskId rj = .ok none →
        (parseAPI cfg env content).1 = ⟨"", []⟩) := by
  refine ⟨rfl, rfl, ?_⟩
  intro cfg env content rj ht hoss hup hsub hid
  simp [parseAPI, ht, apiRun, hoss, hup, hsub, hid, absorb]

def envC5 : APIEnv :=
  ⟨false, fun _ => .error (), fun _ _ => "http://files/src.pdf",
   fun _ => .ok (.obj [("data", .null)]),
   fun _ => none, fun _ => .error ()⟩

/-- Witness for C5: a concrete submit response with `data = null` yields
no task id and the parse returns the empty document. -/
theorem claim_C5_witness :
    apiTaskId (.obj [("data", JVal.null)]) = .ok none ∧
    (parseAPI (mkAPI "tok") envC5 "b").1 = ⟨"", []⟩ :=
  ⟨rfl, claim_C5.2.2 (mkAPI "tok") envC5 "b" (.obj [("data", JVal.null)])
    (by decide) rfl (by decide) rfl rfl⟩

/-- Claim C2 (amended): every failure of the network / submission /
polling / remote-execution / extraction phases is caught at the public
boundary of each strategy and converted into an empty document, and in
this model every strategy is a total function (it never raises).  An
upload failure, however, is not converted into an empty document — the
counterexample shows the synchronous strategy returning a non-empty
document with the failed upload's empty-URL key (the official-API
strategy returns an empty document only when the initial source upload
fails, which is one of the absorbed errors below). -/
theorem claim_C2 :
    (∀ (cfg : StdCfg) (env : StdEnv) (c : String) (e : PErr),
        (stdRun cfg env c).2 = Except.error e → (parseStd cfg env c).1 = ⟨"", []⟩) ∧
    (∀ (cfg : CloudCfg) (env : CloudEnv) (c : String) (e : PErr),
        (cloudRun cfg env c).2 = Except.error e → (parseCloud cfg env c).1 = ⟨"", []⟩) ∧
    (∀ (cfg : APICfg) (env : APIEnv) (c : String) (e : PErr),
        (apiRun env c).2 = Except.error e → (parseAPI cfg env c).1 = ⟨"", []⟩) := by
  refine ⟨?_, ?_, ?_⟩
  · intro cfg env c e h
    simp [parseStd, absorb, h]
  · intro cfg env c e h
    simp [parseCloud, absorb, h]
  · intro cfg env c e h
    by_cases ht : cfg.apiToken = "" <;> simp [parseAPI, ht, absorb, h]

def envC2 : StdEnv :=
  ⟨.ok (), fun _ => .ok ("![](images/a.png)", [("a.png", "data:image/png;base64,AA")]),
   fun s => s, fun s => s, fun _ _ => ""⟩

/-- Counterexample to C2 as stated: a blob-store upload failure (falsy
URL, cf. the `if not file_url` convention of the source) is not converted
into an empty document — the synchronous strategy proceeds and returns a
non-empty document whose mapping is keyed by the empty URL. -/
theorem claim_C2_counterexample :
    (parseStd (mkStd envC2 false) envC2 "b").1 = ⟨"![]()", [("", "AA")]⟩ ∧
    (⟨"![]()", [("", "AA")]⟩ : Document) ≠ ⟨"", []⟩ :=
  ⟨rfl, by decide⟩

def envC2w : StdEnv :=
  ⟨.ok (), fun _ => .error (), fun s => s, fun s => s, fun _ _ => "u"⟩

/-- Witness for C2 at a concrete failing `/file_parse` request. -/
theorem claim_C2_witness :
    (stdRun (mkStd envC2w false) envC2w "b").2 = Except.error PErr.net ∧
    (parseStd (mkStd envC2w false) envC2w "b").1 = ⟨"", []⟩ :=
  ⟨rfl, claim_C2.1 (mkStd envC2w false) envC2w "b" PErr.net rfl⟩

/-- Claim C3 (amended): the poll loop times out exactly when the elapsed
time strictly exceeds the maximum wait of 600 (the source checks
`time.time() - start_time > MAX_WAIT_TIME`): every produced timeout has
elapsed time above 600; a status sequence that is non-terminal up to a
`done` arriving with elapsed time at most 600 — including exactly at the
bound — terminates successfully; and a sequence still non-terminal past
the bound times out at iteration 301 (elapsed 602, one interval past the
bound). -/
theorem claim_C3 :
    (∀ (step : JVal → StepRes) (st : Nat → Option JVal) (i : Nat),
        pollFrom step st 0 = Outcome.timeout i → 600 < 2 * i) ∧
    (∀ (step : JVal → StepRes) (st : Nat → Option JVal) (k : Nat) (v d : JVal),
        2 * k ≤ 600 → (∀ j, j < k → contAt step st j) →
        st k = some v → step v = StepRes.success d →
        pollFrom step st 0 = Outcome.success k d) ∧
    (∀ (step : JVal → StepRes) (st : Nat → Option JVal) (k : Nat),
        600 < 2 * k → (∀ j, j < k → contAt step st j) →
        pollFrom step st 0 = Outcome.timeout 301) := by
  refine ⟨?_, ?_, ?_⟩
  · intro step st i h
    exact pollTimeoutGt step st 302 0 i (by omega) h
  · intro step st k v d hk hcont hv hsv
    have hskip := pollSkip step st k 0 (fun j _ h2 => hcont j (by omega)) (by omega)
    simp only [Nat.zero_add] at hskip
    rw [hskip, pollFrom_unfold, if_neg (by omega), hv]
    simp only [hsv]
  · intro step st k hk hcont
    have hskip := pollSkip step st 301 0 (fun j _ h2 => hcont j (by omega)) (by omega)
    simp only [Nat.zero_add] at hskip
    rw [hskip, pollFrom_unfold, if_pos (by omega)]

def runningJ : JVal := .obj [("status", .str "running")]

def doneJ : JVal := .obj [("status", .str "done")]

def stC3 : Nat → Option JVal := fun i =>
  if i < 300 then some runningJ else some doneJ

/-- Counterexample to C3 as stated: a `done` status arriving exactly at
the bound (iteration 300, cumulative elapsed time 600 ≥ 600) terminates
successfully — the loop does not raise the timeout the claim requires at
elapsed time equal to the maximum wait. -/
theorem claim_C3_counterexample :
    pollFrom cloudStep stC3 0 = Outcome.success 300 JVal.null ∧ 600 ≤ 2 * 300 := by
  constructor
  · have hcont : ∀ j, j < 300 → contAt cloudStep stC3 j := by
      intro j hj
      refine Or.inr ⟨runningJ, ?_, rfl⟩
      simp [stC3, hj]
    have hskip := pollSkip cloudStep stC3 300 0 (fun j _ h2 => hcont j (by omega)) (by omega)
    simp only [Nat.zero_add] at hskip
    rw [hskip, pollFrom_unfold, if_neg (by omega)]
    have hst : stC3 300 = some doneJ := by simp [stC3]
    rw [hst]
    rfl
  · omega

def stC3w : Nat → Option JVal := fun i =>
  if i = 0 then some runningJ else some doneJ

def stC3w2 : Nat → Option JVal := fun _ => some runningJ

/-- Witness for C3: a `done` at iteration 1 (elapsed 2) succeeds, and an
all-pending sequence times out at iteration 301. -/
theorem claim_C3_witness :
    pollFrom cloudStep stC3w 0 = Outcome.success 1 JVal.null ∧
    pollFrom cloudStep stC3w2 0 = Outcome.timeout 301 := by
  constructor
  · refine claim_C3.2.1 cloudStep stC3w 1 doneJ JVal.null (by omega) ?_ rfl rfl
    intro j hj
    have hj0 : j = 0 := by omega
    subst hj0
    exact Or.inr ⟨runningJ, rfl, rfl⟩
  · exact claim_C3.2.2 cloudStep stC3w2 301 (by omega)
      (fun j _ => Or.inr ⟨runningJ, rfl, rfl⟩)

/-- Claim C1 (amended): in the synchronous and self-hosted reconciliation
loop, a candidate whose `images/<id>` token is not a substring of the
markdown has no effect at all — it is never uploaded and never enters the
mapping (the loop equals itself on the filtered candidate list); every
key of the mapping is the blob-store URL of a referenced, pattern-matched
and successfully decoded candidate; and when a single rewrite entry is
registered, its URL occurs literally in the rewritten content.  (With
several surviving candidates whose tokens overlap, and in the
official-API archive path, which uploads and records every image entry
unconditionally, a key need not occur in the content — see the
counterexample.) -/
theorem claim_C1 :
    (∀ (sb : Bool) (dec : String → String) (up : String → String → String)
        (md : String) (cands : List (String × String)),
        recon sb dec up md cands
          = recon sb dec up md (cands.filter (fun p => containsS md ("images/" ++ p.1)))) ∧
    (∀ (sb : Bool) (dec : String → String) (up : String → String → String)
        (md : String) (cands : List (String × String)) (k v : String),
        (k, v) ∈ (recon sb dec up md cands).1 →
        ∃ ipath b64 ext b64c, (ipath, b64) ∈ cands ∧
          containsS md ("images/" ++ ipath) = true ∧
          matchB64 b64 = some (ext, b64c) ∧ dec b64c ≠ "" ∧
          k = up (dec b64c) ("." ++ ext) ∧ v = b64c) ∧
    (∀ (sb : Bool) (dec : String → String) (up : String → String → String)
        (md : String) (cands : List (String × String)) (tok url : String),
        (recon sb dec up md cands).2.1 = [(tok, url)] →
        containsS (replacePath md [(tok, url)]) url = true) := by
  refine ⟨recon_filter, recon_keys, ?_⟩
  intro sb dec up md cands tok url h
  have hmem : (tok, url) ∈ (recon sb dec up md cands).2.1 := by
    rw [h]; exact List.mem_cons_self _ _
  obtain ⟨hcont, hne⟩ := recon_rep sb dec up md cands tok url hmem
  show containsTok url.data (replacePath md [(tok, url)]).data = true
  exact urlPlanted tok.data url.data hne md.data.length md.data (Nat.le_refl _) hcont

def upC1 : String → String → String := fun _ e =>
  if e = ".pdf" then "http://files/src.pdf" else "https://u/fig.png"

def envC1 : APIEnv :=
  ⟨false, fun _ => .error (), upC1,
   fun _ => .ok (.obj [("data", .str "task1")]),
   fun _ => some (.obj [("data", .obj
     [("state", .str "done"), ("full_zip_url", .str "http://z")])]),
   fun _ => .ok [("out/full.md", "hello"), ("out/images/fig.png", "PNGBYTES")]⟩

def upC1b : String → String → String := fun b _ =>
  if b = "AA" then "http://u/1.png" else "http://u/2.png"

def envC1b : StdEnv :=
  ⟨.ok (), fun _ => .ok ("![](images/ab)",
     [("a", "data:image/png;base64,AA"), ("ab", "data:image/png;base64,BB")]),
   fun s => s, fun s => s, upC1b⟩

/-- Counterexample to C1 as stated, in both failure modes.  First, the
official-API strategy uploads an archive image that the markdown never
references and records its URL in the mapping, so that key is not a
substring of the content and the unreferenced candidate was uploaded.
Second, in the synchronous strategy two candidates with overlapping
tokens (`images/a` and `images/ab`) both survive the filter, but after
rewriting, the second URL does not occur in the content. -/
theorem claim_C1_counterexample :
    ((parseAPI (mkAPI "tok") envC1 "b").1 = ⟨"hello", [("https://u/fig.png", "")]⟩ ∧
     containsS "hello" "https://u/fig.png" = false ∧
     (parseAPI (mkAPI "tok") envC1 "b").2 =
       [Event.up "b" ".pdf", Event.net "submit", Event.net "status",
        Event.net "zip", Event.up "PNGBYTES" ".png"]) ∧
    ((parseStd (mkStd envC1b false) envC1b "b").1 =
       ⟨"![](http://u/1.pngb)", [("http://u/1.png", "AA"), ("http://u/2.png", "BB")]⟩ ∧
     containsS "![](http://u/1.pngb)" "http://u/2.png" = false) :=
  ⟨⟨rfl, by decide, rfl⟩, ⟨rfl, by decide⟩⟩

/-- Witness for C1: a single surviving candidate's URL occurs in the
rewritten content. -/
theorem claim_C1_witness :
    (recon true (fun s => s) (fun _ _ => "http://u/a.png") "![](images/a.png)"
        [("a.png", "data:image/png;base64,AA")]).2.1
      = [("images/a.png", "http://u/a.png")] ∧
    containsS (replacePath "![](images/a.png)" [("images/a.png", "http://u/a.png")])
      "http://u/a.png" = true :=
  ⟨rfl, claim_C1.2.2 true (fun s => s) (fun _ _ => "http://u/a.png") "![](images/a.png)"
      [("a.png", "data:image/png;base64,AA")] "images/a.png" "http://u/a.png" rfl⟩

def envC6 : APIEnv :=
  ⟨false, fun _ => .error (), fun _ _ => "http://files/src.pdf",
   fun _ => .ok (.obj [("data", .str "task1")]),
   fun _ => some (.obj [("data", JVal.null), ("state", .str "done")]),
   fun _ => .error ()⟩

/-- Claim C6, code-bug evidence: on the status payload with `data = null`
and a top-level `state = "done"`, the classifier crashes (Python calls
`.get` on `None`, an `AttributeError` the inner handler does not catch)
instead of falling back to the top-level state as the claim — and the
code's own comment — requires; the whole parse therefore returns an
empty document instead of succeeding. -/
theorem claim_C6_bug :
    apiStep (JVal.obj [("data", JVal.null), ("state", JVal.str "done")]) = StepRes.crash ∧
    (parseAPI (mkAPI "tok") envC6 "b").1 = ⟨"", []⟩ :=
  ⟨rfl, rfl⟩

def upC7 : String → String → String := fun _ _ => "https://blob/fig1.png"

def zipC7 : List (String × String) :=
  [("out/full.md", "![](images/fig1.png)"), ("out/images/fig1.png", "PNGBYTES")]

/-- Claim C7: markdown-entry selection prefers a `full.md` name outside
`__MACOSX`, falls back to any `.md` name outside `__MACOSX`, and the
parse returns an empty document when there is none; and on the archive
with `out/full.md` and `out/images/fig1.png`, the relative path is
`images/fig1.png`, both it and its `./`-prefixed variant are registered
as rewrite keys, and after reconciliation the markdown holds the uploaded
URL in place of the literal path. -/
theorem claim_C7 :
    (∀ names : List String, (∃ n, n ∈ names ∧ fullOkB n = true) →
        ∃ m, findMd names = some m ∧ fullOkB m = true) ∧
    (∀ names : List String, (∀ n, n ∈ names → fullOkB n = false) →
        (∃ n, n ∈ names ∧ mdOkB n = true) →
        ∃ m, findMd names = some m ∧ mdOkB m = true) ∧
    (∀ (cfg : APICfg) (env : APIEnv) (c : String) (rj : JVal) (i : Nat)
        (ds : List (String × JVal)) (zu : JVal) (entries : List (String × String)),
        cfg.apiToken ≠ "" → env.ossConfigured = false →
        env.upload c ".pdf" ≠ "" →
        env.submit (env.upload c ".pdf") = .ok rj →
        (∃ tid, apiTaskId rj = .ok (some tid)) →
        pollFrom apiStep env.status 0 = .success i (.obj ds) →
        findZipUrl ds = some zu → env.zipFetch zu = .ok entries →
        findMd (entries.map Prod.fst) = none →
        (parseAPI cfg env c).1 = ⟨"", []⟩) ∧
    (relpath "out/images/fig1.png" "out" = "images/fig1.png" ∧
     (zipImages upC7 "out" zipC7).2.1 =
       [("images/fig1.png", "https://blob/fig1.png"),
        ("./images/fig1.png", "https://blob/fig1.png")] ∧
     processZip upC7 zipC7 =
       ([Event.up "PNGBYTES" ".png"],
        .ok ⟨"![](https://blob/fig1.png)", [("https://blob/fig1.png", "")]⟩) ∧
     containsS "![](https://blob/fig1.png)" "https://blob/fig1.png" = true) := by
  refine ⟨?_, ?_, ?_, rfl, rfl, rfl, by decide⟩
  · intro names h
    obtain ⟨m, hm, hpm⟩ := find_mem fullOkB names h
    exact ⟨m, by simp only [findMd, hm], hpm⟩
  · intro names hall h
    obtain ⟨m, hm, hpm⟩ := find_mem mdOkB names h
    have h0 : names.find? fullOkB = none := find_none fullOkB names hall
    exact ⟨m, by simp only [findMd, h0, hm], hpm⟩
  · intro cfg env c rj i ds zu entries ht hoss hup hsub hid hpoll hzu hzf hf
    obtain ⟨tid, hid⟩ := hid
    simp [parseAPI, ht, apiRun, hoss, hup, hsub, hid, hpoll, hzu, hzf,
      processZip, hf, absorb]

def envC7 : APIEnv :=
  ⟨false, fun _ => .error (), fun _ _ => "http://files/src.pdf",
   fun _ => .ok (.obj [("data", .str "t")]),
   fun _ => some (.obj [("data", .obj
     [("state", .str "done"), ("full_zip_url", .str "http://z")])]),
   fun _ => .ok [("__MACOSX/full.md", "x")]⟩

/-- Witness for C7: a concrete list with a `full.md` entry is selected,
and a concrete run whose archive holds only a `__MACOSX` entry yields an
empty document. -/
theorem claim_C7_witness :
    (∃ m, findMd ["a/full.md", "b.md"] = some m ∧ fullOkB m = true) ∧
    (parseAPI (mkAPI "tok") envC7 "b").1 = ⟨"", []⟩ := by
  constructor
  · exact claim_C7.1 ["a/full.md", "b.md"] ⟨"a/full.md", by decide, by decide⟩
  · exact claim_C7.2.2.1 (mkAPI "tok") envC7 "b" (.obj [("data", .str "t")]) 0
      [("state", .str "done"), ("full_zip_url", .str "http://z")] (.str "http://z")
      [("__MACOSX/full.md", "x")] (by decide) rfl (by decide) rfl
      ⟨.str "t", rfl⟩ rfl rfl rfl rfl
